import Mathlib

/-!
Shallow embedding of the clarification core of the food-journal bot:
`ClarificationService` (src/bot/services/clarification_service.py),
the `PendingClarification` model (src/bot/models/nutrition_models.py)
and the clarification-related message handlers
(src/bot/handlers/food_handler.py).

Modelling conventions:
* Python's in-memory dict `_pending_clarifications` is an association
  list `Store` with dict semantics: assignment replaces in place or
  appends, `del` removes the entry, iteration follows list order.
  Well-formedness `WF` (no duplicate keys) is the dict invariant.
* Wall-clock time is a `Nat` of seconds, passed explicitly where the
  Python code calls `datetime.now()`; `timedelta(hours=h)` is `h * 3600`
  seconds, and datetime comparisons are carried out in `Int` so that
  `now - maxAge` never truncates.
* Raw media bytes are opaque and represented by `String`; since
  base64 text is a faithful representation of a byte string, the
  `base64.b64encode(...).decode()` step is the identity on this
  representation.
* The persistence file is `RawFile`: `none` when the file does not
  exist, otherwise the list of serialized entries in JSON-object order.
  `str(user_id)` and `datetime.isoformat` are modelled as decimal digit
  lists (`Nat.digits 10`); `int(...)`/`fromisoformat` reject any entry
  containing a non-digit, mirroring `ValueError` on malformed text.
* File writes can fail (disk full, permissions): a `writeOk : Bool`
  flag selects the outcome.  The Python `except` clause in
  `_save_to_file` only prints, so a failed write leaves the previous
  disk contents and the caller learns nothing — this is modelled
  exactly, not repaired.
-/

namespace FoodJournal

/-- Embedding of `PendingClarification` (src/bot/models/nutrition_models.py).
`original_data` is a string-keyed dict whose values are all strings in
every use site (`photo_bytes`, `analysis_text`, `text_description`,
`audio_bytes`, `filename`, `transcribed_text`). -/
structure PendingClarification where
  user_id : Nat
  original_data : List (String × String)
  analysis_text : String
  uncertain_items : List String
  uncertainty_reasons : List String
  timestamp : Nat
  media_type : String
deriving DecidableEq, Repr

/-- In-memory state of `ClarificationService`: the
`_pending_clarifications` dict as an association list. -/
abbrev Store := List (Nat × PendingClarification)

/-- Keys of the dict, in iteration order. -/
def keys (s : Store) : List Nat := s.map Prod.fst

/-- Dict invariant: no duplicate keys (always true of a Python dict). -/
def WF (s : Store) : Prop := (keys s).Nodup

instance : DecidablePred WF := fun s => by
  unfold WF; infer_instance

/-- Dict lookup `d.get(u)`. -/
def dictGet (s : Store) (u : Nat) : Option PendingClarification :=
  match s with
  | [] => none
  | (k, v) :: rest => if k = u then some v else dictGet rest u

/-- Dict assignment `d[u] = v`: replace in place, else append. -/
def dictSet (s : Store) (u : Nat) (v : PendingClarification) : Store :=
  match s with
  | [] => [(u, v)]
  | (k, w) :: rest => if k = u then (u, v) :: rest else (k, w) :: dictSet rest u v

/-- Dict deletion `del d[u]`. -/
def dictDel (s : Store) (u : Nat) : Store :=
  match s with
  | [] => []
  | (k, w) :: rest => if k = u then dictDel rest u else (k, w) :: dictDel rest u

/-- `d.get(key, default)` on the string-keyed `original_data` dict. -/
def dataGetD (d : List (String × String)) (key : String) (dflt : String) : String :=
  match d with
  | [] => dflt
  | (k, v) :: rest => if k = key then v else dataGetD rest key dflt

/- ### Basic dict lemmas -/

theorem dictGet_dictSet_self (s : Store) (u : Nat) (v : PendingClarification) :
    dictGet (dictSet s u v) u = some v := by
  induction s with
  | nil => simp [dictSet, dictGet]
  | cons hd tl ih =>
    obtain ⟨k, w⟩ := hd
    by_cases h : k = u
    · simp [dictSet, dictGet, h]
    · simp [dictSet, dictGet, h, ih]

theorem keys_cons (k : Nat) (w : PendingClarification) (tl : Store) :
    keys ((k, w) :: tl) = k :: keys tl := rfl

theorem dictGet_dictSet_ne (s : Store) (u u' : Nat) (v : PendingClarification)
    (h : u' ≠ u) : dictGet (dictSet s u v) u' = dictGet s u' := by
  have h2 : ¬ u = u' := fun hh => h hh.symm
  induction s with
  | nil => simp [dictSet, dictGet, h2]
  | cons hd tl ih =>
    obtain ⟨k, w⟩ := hd
    by_cases hk : k = u
    · subst hk
      simp [dictSet, dictGet, h2]
    · simp [dictSet, dictGet, hk, ih]

theorem keys_dictSet (s : Store) (u : Nat) (v : PendingClarification) :
    keys (dictSet s u v) = if u ∈ keys s then keys s else keys s ++ [u] := by
  induction s with
  | nil => simp [dictSet, keys]
  | cons hd tl ih =>
    obtain ⟨k, w⟩ := hd
    by_cases h : k = u
    · subst h
      simp [dictSet, keys_cons]
    · have h' : ¬ u = k := fun hh => h hh.symm
      have hset : dictSet ((k, w) :: tl) u v = (k, w) :: dictSet tl u v := by
        simp [dictSet, h]
      rw [hset, keys_cons, keys_cons, ih]
      by_cases hm : u ∈ keys tl
      · simp [hm, h']
      · simp [hm, h']

theorem WF_dictSet (s : Store) (u : Nat) (v : PendingClarification)
    (h : WF s) : WF (dictSet s u v) := by
  unfold WF at *
  rw [keys_dictSet]
  by_cases hm : u ∈ keys s
  · simpa [hm] using h
  · simp only [hm, if_false]
    exact List.Nodup.append h (List.nodup_singleton u)
      (by simpa [List.disjoint_singleton] using hm)

theorem dictDel_eq_filter (s : Store) (u : Nat) :
    dictDel s u = s.filter (fun p => decide (p.1 ≠ u)) := by
  induction s with
  | nil => simp [dictDel]
  | cons hd tl ih =>
    obtain ⟨k, w⟩ := hd
    by_cases h : k = u
    · simp [dictDel, h, ih, List.filter]
    · simp [dictDel, h, ih, List.filter]

theorem dictGet_eq_none_iff (s : Store) (u : Nat) :
    dictGet s u = none ↔ u ∉ keys s := by
  induction s with
  | nil => simp [dictGet, keys]
  | cons hd tl ih =>
    obtain ⟨k, w⟩ := hd
    by_cases h : k = u
    · subst h
      simp [dictGet, keys_cons]
    · have h' : ¬ u = k := fun hh => h hh.symm
      rw [keys_cons]
      simp only [dictGet, h, if_false, List.mem_cons, not_or]
      rw [ih]
      constructor
      · intro hh
        exact ⟨h', hh⟩
      · intro hh
        exact hh.2

theorem dictGet_isSome_iff (s : Store) (u : Nat) :
    (dictGet s u).isSome = true ↔ u ∈ keys s := by
  rw [Option.isSome_iff_ne_none]
  constructor
  · intro h
    by_contra hm
    exact h ((dictGet_eq_none_iff s u).mpr hm)
  · intro h hn
    exact ((dictGet_eq_none_iff s u).mp hn) h

theorem dictGet_dictDel_self (s : Store) (u : Nat) :
    dictGet (dictDel s u) u = none := by
  rw [dictGet_eq_none_iff, dictDel_eq_filter]
  intro hmem
  unfold keys at hmem
  obtain ⟨p, hp, hpu⟩ := List.mem_map.mp hmem
  have := List.of_mem_filter hp
  simp [hpu] at this

/-- In a well-formed store two entries with the same key coincide. -/
theorem WF_eq_of_keys_eq (s : Store) (h : WF s)
    (p q : Nat × PendingClarification) (hp : p ∈ s) (hq : q ∈ s)
    (hk : p.1 = q.1) : p = q := by
  induction s with
  | nil => cases hp
  | cons hd tl ih =>
    have hnd : hd.1 ∉ keys tl ∧ WF tl := by
      unfold WF keys at h ⊢
      simpa [keys] using h
    rcases List.mem_cons.mp hp with hp1 | hp2
    · rcases List.mem_cons.mp hq with hq1 | hq2
      · rw [hp1, hq1]
      · exfalso
        apply hnd.1
        rw [hp1] at hk
        rw [hk]
        exact List.mem_map.mpr ⟨q, hq2, rfl⟩
    · rcases List.mem_cons.mp hq with hq1 | hq2
      · exfalso
        apply hnd.1
        rw [hq1] at hk
        rw [← hk]
        exact List.mem_map.mpr ⟨p, hp2, rfl⟩
      · exact ih hnd.2 hp2 hq2

/- ### Persistence layer: `_save_to_file` / `_load_from_file` -/

/-- One entry of the JSON file written by `_save_to_file`:
`model_dump()` of a `PendingClarification` with the `timestamp` field
replaced by its `isoformat()` text (a decimal digit list here). -/
structure SerializedClarification where
  user_id : Nat
  original_data : List (String × String)
  analysis_text : String
  uncertain_items : List String
  uncertainty_reasons : List String
  timestamp : List Nat
  media_type : String
deriving DecidableEq, Repr

/-- The JSON file: entries keyed by `str(user_id)` (a digit list), in
object order.  `none` models a missing file (`os.path.exists` false). -/
abbrev RawFile := Option (List (List Nat × SerializedClarification))

/-- Serialization of one dict entry inside `_save_to_file`. -/
def encodeEntry (p : Nat × PendingClarification) : List Nat × SerializedClarification :=
  (Nat.digits 10 p.1,
   ⟨p.2.user_id, p.2.original_data, p.2.analysis_text, p.2.uncertain_items,
    p.2.uncertainty_reasons, Nat.digits 10 p.2.timestamp, p.2.media_type⟩)

/-- `_save_to_file`: rewrites the whole file from the in-memory dict.
Any exception is caught and only printed, so on a failed write
(`writeOk = false`) the previous disk contents remain and the caller
is not informed. -/
def save_to_file (s : Store) (writeOk : Bool) (disk : RawFile) : RawFile :=
  if writeOk then some (s.map encodeEntry) else disk

/-- `datetime.fromisoformat` / `int(...)`: parse a decimal digit list,
failing (`ValueError`) when a non-digit is present. -/
def parseDigits (d : List Nat) : Option Nat :=
  if d.all (fun x => decide (x < 10)) then some (Nat.ofDigits 10 d) else none

/-- Decoding of one file entry inside `_load_from_file`'s loop:
`int(user_id_str)`, `datetime.fromisoformat(timestamp)`, then
`PendingClarification(**dict)`. -/
def decodeEntry (e : List Nat × SerializedClarification) :
    Option (Nat × PendingClarification) :=
  match parseDigits e.1, parseDigits e.2.timestamp with
  | some u, some t =>
      some (u, ⟨e.2.user_id, e.2.original_data, e.2.analysis_text,
                e.2.uncertain_items, e.2.uncertainty_reasons, t, e.2.media_type⟩)
  | _, _ => none

/-- Decode all entries; the first failure aborts the whole load
(the exception escapes the `for` loop). -/
def decodeAll : List (List Nat × SerializedClarification) →
    Option (List (Nat × PendingClarification))
  | [] => some []
  | e :: rest =>
    match decodeEntry e, decodeAll rest with
    | some p, some l => some (p :: l)
    | _, _ => none

/-- `_load_from_file`: a missing file leaves the dict empty; decoded
entries are inserted in file order; any exception is caught, printed,
and the dict reset to `{}`. -/
def load_from_file (file : RawFile) : Store :=
  match file with
  | none => []
  | some entries =>
    match decodeAll entries with
    | some l => l.foldl (fun st p => dictSet st p.1 p.2) []
    | none => []

/- ### ClarificationService operations -/

/-- `has_pending_clarification`. -/
def has_pending_clarification (s : Store) (u : Nat) : Bool :=
  (dictGet s u).isSome

/-- `store_pending_clarification`: builds the record with
`timestamp = datetime.now()` (the explicit `now` argument — the caller
supplies no creation time), assigns it into the dict (replacing any
previous record for the user) and flushes the whole dict to disk.
Returns the new memory and disk states; the Python function returns
`None`, in particular no error indication even when the flush failed. -/
def store_pending_clarification (s : Store) (disk : RawFile) (writeOk : Bool)
    (u : Nat) (original_data : List (String × String)) (analysis_text : String)
    (uncertain_items uncertainty_reasons : List String)
    (media_type : String) (now : Nat) : Store × RawFile :=
  let s2 := dictSet s u
    ⟨u, original_data, analysis_text, uncertain_items, uncertainty_reasons,
     now, media_type⟩
  (s2, save_to_file s2 writeOk disk)

/-- `get_pending_clarification`. -/
def get_pending_clarification (s : Store) (u : Nat) : Option PendingClarification :=
  dictGet s u

/-- `clear_pending_clarification`: deletes the entry and flushes, doing
nothing when no entry exists. -/
def clear_pending_clarification (s : Store) (disk : RawFile) (writeOk : Bool)
    (u : Nat) : Store × RawFile :=
  if u ∈ keys s then
    let s2 := dictDel s u
    (s2, save_to_file s2 writeOk disk)
  else (s, disk)

/-- The expiry test of `cleanup_expired_clarifications`:
`clarification.timestamp < now - timedelta(hours=max_age_hours)`. -/
def isExpired (now max_age_hours : Int) (c : PendingClarification) : Bool :=
  decide ((c.timestamp : Int) < now - max_age_hours * 3600)

/-- `cleanup_expired_clarifications`: collects the users whose record is
older than the cutoff, deletes them, flushes only if something was
deleted.  The Python function has no `return` statement — it returns
`None` (the third component), never the count (which is only printed). -/
def cleanup_expired_clarifications (s : Store) (disk : RawFile) (writeOk : Bool)
    (now : Int) (max_age_hours : Int) : Store × RawFile × Option Nat :=
  let expired_users := (s.filter (fun p => isExpired now max_age_hours p.2)).map Prod.fst
  let s2 := expired_users.foldl (fun st u => dictDel st u) s
  (s2, if expired_users.isEmpty then disk else save_to_file s2 writeOk disk, none)

/- ### AI analyzer collaborator and message handlers -/

/-- Slice of `UncertaintyInfo` used by the handlers. -/
structure UncertaintyInfo where
  has_uncertainty : Bool
  uncertain_items : List String
  uncertainty_reasons : List String
deriving DecidableEq, Repr

/-- Slice of `FoodAnalysisResponse` used by the handlers: `text` is the
`str(analysis)` summary the handlers store, `uncertainty` the optional
uncertainty block (`None` in Python is `none`). -/
structure FoodAnalysis where
  text : String
  uncertainty : Option UncertaintyInfo
deriving DecidableEq, Repr

/-- A call made to `AIFoodAnalyzer`, recording the exact arguments.
One constructor per method, mirroring the Python signatures. -/
inductive ProviderCall where
  | analyze_food_image (image_bytes : String) (clarification_text : Option String)
  | analyze_food_text (text_description : String) (clarification_text : Option String)
  | analyze_food_audio (audio_bytes : String) (filename : String)
      (clarification_text : Option String)
  | analyze_with_clarification (original_analysis_text : String)
      (clarification_data : String) (clarification_type : String)
      (filename : Option String)
deriving DecidableEq, Repr

/-- The external `AIFoodAnalyzer` as an oracle: each method may return
`None` (provider error, timeout, empty result).  `audio` also returns
the transcription. -/
structure Provider where
  image : String → Option String → Option FoodAnalysis
  text : String → Option String → Option FoodAnalysis
  audio : String → String → Option String → Option (FoodAnalysis × String)
  withClarification : String → String → String → Option String → Option FoodAnalysis

/-- Evaluate a recorded call against the oracle (audio projected to its
analysis component). -/
def Provider.run (p : Provider) : ProviderCall → Option FoodAnalysis
  | .analyze_food_image b c => p.image b c
  | .analyze_food_text d c => p.text d c
  | .analyze_food_audio b f c => (p.audio b f c).map Prod.fst
  | .analyze_with_clarification o d t f => p.withClarification o d t f

/-- The user-visible outcome of a handler run (which reply was sent). -/
inductive Outcome where
  | clarificationRequested
  | finalStored (is_clarification : Bool)
  | analysisFailed
  | noPendingMessage
deriving DecidableEq, Repr

/-- State and observables after a handler run. -/
structure HandlerResult where
  store : Store
  disk : RawFile
  outcome : Outcome
  calls : List ProviderCall
deriving DecidableEq, Repr

/-- `handle_clarification_photo`: reads the pending record, calls
`analyze_with_clarification(original_analysis_text=pending.analysis_text,
clarification_data=photo_bytes, clarification_type='photo')`; on success
clears the pending record, on a `None` result replies `analysis_failed`
without touching the store. -/
def handle_clarification_photo (s : Store) (disk : RawFile) (writeOk : Bool)
    (u : Nat) (photo_bytes : String) (p : Provider) : HandlerResult :=
  match get_pending_clarification s u with
  | none => ⟨s, disk, .noPendingMessage, []⟩
  | some pending =>
    let call := ProviderCall.analyze_with_clarification
      pending.analysis_text photo_bytes "photo" none
    match p.run call with
    | some _ =>
      let (s2, d2) := clear_pending_clarification s disk writeOk u
      ⟨s2, d2, .finalStored true, [call]⟩
    | none => ⟨s, disk, .analysisFailed, [call]⟩

/-- `handle_clarification_text`: reads the pending record and calls
`analyze_food_text(text_description=pending.original_data.get('text_description', ''),
clarification_text=text_description)` — note it passes the stored
*original payload* (empty when the original submission was not text),
not `pending.analysis_text`. -/
def handle_clarification_text (s : Store) (disk : RawFile) (writeOk : Bool)
    (u : Nat) (text_description : String) (p : Provider) : HandlerResult :=
  match get_pending_clarification s u with
  | none => ⟨s, disk, .noPendingMessage, []⟩
  | some pending =>
    let original_text := dataGetD pending.original_data "text_description" ""
    let call := ProviderCall.analyze_food_text original_text (some text_description)
    match p.run call with
    | some _ =>
      let (s2, d2) := clear_pending_clarification s disk writeOk u
      ⟨s2, d2, .finalStored true, [call]⟩
    | none => ⟨s, disk, .analysisFailed, [call]⟩

/-- `handle_clarification_audio`: reads the pending record, calls
`analyze_with_clarification(original_analysis_text=pending.analysis_text,
clarification_data=audio_bytes, clarification_type='audio',
filename=filename)`; on success clears, on `None` replies
`analysis_failed` without touching the store. -/
def handle_clarification_audio (s : Store) (disk : RawFile) (writeOk : Bool)
    (u : Nat) (audio_bytes : String) (filename : String) (p : Provider) :
    HandlerResult :=
  match get_pending_clarification s u with
  | none => ⟨s, disk, .noPendingMessage, []⟩
  | some pending =>
    let call := ProviderCall.analyze_with_clarification
      pending.analysis_text audio_bytes "audio" (some filename)
    match p.run call with
    | some _ =>
      let (s2, d2) := clear_pending_clarification s disk writeOk u
      ⟨s2, d2, .finalStored true, [call]⟩
    | none => ⟨s, disk, .analysisFailed, [call]⟩

/-- `handle_food_photo` from the pending-clarification dispatch onward
(authorization and photo download precede and do not touch the store):
with a pending record it delegates to `handle_clarification_photo`;
otherwise it analyzes afresh and, on `has_uncertainty`, stores a pending
record (with the photo bytes and summary as `original_data`) and asks
for clarification. -/
def handle_food_photo (s : Store) (disk : RawFile) (writeOk : Bool)
    (u : Nat) (photo_bytes : String) (p : Provider) (now : Nat) : HandlerResult :=
  if has_pending_clarification s u then
    handle_clarification_photo s disk writeOk u photo_bytes p
  else
    let call := ProviderCall.analyze_food_image photo_bytes none
    match p.run call with
    | none => ⟨s, disk, .analysisFailed, [call]⟩
    | some analysis =>
      match analysis.uncertainty with
      | some unc =>
        if unc.has_uncertainty then
          let original_data :=
            [("photo_bytes", photo_bytes), ("analysis_text", analysis.text)]
          let (s2, d2) := store_pending_clarification s disk writeOk u
            original_data analysis.text unc.uncertain_items
            unc.uncertainty_reasons "photo" now
          ⟨s2, d2, .clarificationRequested, [call]⟩
        else ⟨s, disk, .finalStored false, [call]⟩
      | none => ⟨s, disk, .finalStored false, [call]⟩

/-- `handle_text_message` from the pending-clarification dispatch onward. -/
def handle_text_message (s : Store) (disk : RawFile) (writeOk : Bool)
    (u : Nat) (text_description : String) (p : Provider) (now : Nat) :
    HandlerResult :=
  if has_pending_clarification s u then
    handle_clarification_text s disk writeOk u text_description p
  else
    let call := ProviderCall.analyze_food_text text_description none
    match p.run call with
    | none => ⟨s, disk, .analysisFailed, [call]⟩
    | some analysis =>
      match analysis.uncertainty with
      | some unc =>
        if unc.has_uncertainty then
          let original_data :=
            [("text_description", text_description), ("analysis_text", analysis.text)]
          let (s2, d2) := store_pending_clarification s disk writeOk u
            original_data analysis.text unc.uncertain_items
            unc.uncertainty_reasons "text" now
          ⟨s2, d2, .clarificationRequested, [call]⟩
        else ⟨s, disk, .finalStored false, [call]⟩
      | none => ⟨s, disk, .finalStored false, [call]⟩

/-- `handle_audio` from the pending-clarification dispatch onward
(`analyze_food_audio` also yields the transcription stored in
`original_data`). -/
def handle_audio (s : Store) (disk : RawFile) (writeOk : Bool)
    (u : Nat) (audio_bytes : String) (filename : String) (p : Provider)
    (now : Nat) : HandlerResult :=
  if has_pending_clarification s u then
    handle_clarification_audio s disk writeOk u audio_bytes filename p
  else
    let call := ProviderCall.analyze_food_audio audio_bytes filename none
    match p.audio audio_bytes filename none with
    | none => ⟨s, disk, .analysisFailed, [call]⟩
    | some (analysis, transcribed_text) =>
      match analysis.uncertainty with
      | some unc =>
        if unc.has_uncertainty then
          let original_data :=
            [("audio_bytes", audio_bytes), ("filename", filename),
             ("transcribed_text", transcribed_text), ("analysis_text", analysis.text)]
          let (s2, d2) := store_pending_clarification s disk writeOk u
            original_data analysis.text unc.uncertain_items
            unc.uncertainty_reasons "audio" now
          ⟨s2, d2, .clarificationRequested, [call]⟩
        else ⟨s, disk, .finalStored false, [call]⟩
      | none => ⟨s, disk, .finalStored false, [call]⟩

/-- `cancel_clarification` (the `/cancel` command handler): reports via
its reply whether a pending record existed (`clarification_cancelled`
vs `no_pending_clarification`, the returned `Bool`) and clears it when
it did. -/
def cancel_clarification (s : Store) (disk : RawFile) (writeOk : Bool)
    (u : Nat) : Store × RawFile × Bool :=
  if has_pending_clarification s u then
    let (s2, d2) := clear_pending_clarification s disk writeOk u
    (s2, d2, true)
  else (s, disk, false)

/- ### Lemmas about deletion, cleanup and persistence -/

theorem WF_dictDel (s : Store) (u : Nat) (h : WF s) : WF (dictDel s u) := by
  unfold WF
  rw [dictDel_eq_filter]
  exact List.Nodup.sublist (List.Sublist.map Prod.fst (List.filter_sublist s)) h

theorem dictGet_mem (s : Store) (u : Nat) (v : PendingClarification)
    (h : dictGet s u = some v) : (u, v) ∈ s := by
  induction s with
  | nil => simp [dictGet] at h
  | cons hd tl ih =>
    obtain ⟨k, w⟩ := hd
    by_cases hk : k = u
    · subst hk
      simp [dictGet] at h
      subst h
      exact List.mem_cons_self _ _
    · simp [dictGet, hk] at h
      exact List.mem_cons_of_mem _ (ih h)

theorem dictGet_filter_none (s : Store) (u : Nat) (pred : Nat × PendingClarification → Bool)
    (h : dictGet s u = none) : dictGet (s.filter pred) u = none := by
  rw [dictGet_eq_none_iff] at h ⊢
  intro hmem
  apply h
  unfold keys at hmem ⊢
  obtain ⟨p, hp, hpu⟩ := List.mem_map.mp hmem
  exact List.mem_map.mpr ⟨p, (List.mem_filter.mp hp).1, hpu⟩

theorem dictGet_filter (s : Store) (h : WF s)
    (pred : Nat × PendingClarification → Bool) (u : Nat) :
    dictGet (s.filter pred) u =
      (dictGet s u).bind (fun v => if pred (u, v) then some v else none) := by
  induction s with
  | nil => simp [dictGet]
  | cons hd tl ih =>
    obtain ⟨k, w⟩ := hd
    have hnd : k ∉ keys tl ∧ WF tl := by
      unfold WF at h ⊢
      simpa [keys_cons] using h
    by_cases hk : k = u
    · subst hk
      have htl : dictGet tl k = none := (dictGet_eq_none_iff tl k).mpr hnd.1
      by_cases hp : pred (k, w) = true
      · simp [List.filter, hp, dictGet]
      · have hp' : pred (k, w) = false := Bool.eq_false_iff.mpr hp
        simp [List.filter, hp', dictGet, dictGet_filter_none tl k pred htl]
    · by_cases hp : pred (k, w) = true
      · simp [List.filter, hp, dictGet, hk, ih hnd.2]
      · have hp' : pred (k, w) = false := Bool.eq_false_iff.mpr hp
        simp [List.filter, hp', dictGet, hk, ih hnd.2]

theorem foldl_dictDel (us : List Nat) (s : Store) :
    us.foldl (fun st u => dictDel st u) s =
      s.filter (fun p => decide (p.1 ∉ us)) := by
  induction us generalizing s with
  | nil => simp
  | cons u rest ih =>
    rw [List.foldl_cons, ih, dictDel_eq_filter, List.filter_filter]
    apply List.filter_congr
    intro p _
    by_cases h1 : p.1 = u
    · simp [h1]
    · simp [h1]

/-- The in-memory effect of the expiry sweep, characterised entry-wise:
on a well-formed store an entry survives iff it is not expired. -/
theorem cleanup_mem_iff (s : Store) (disk : RawFile) (writeOk : Bool)
    (now max_age_hours : Int) (h : WF s) (e : Nat × PendingClarification) :
    e ∈ (cleanup_expired_clarifications s disk writeOk now max_age_hours).1 ↔
      e ∈ s ∧ isExpired now max_age_hours e.2 = false := by
  unfold cleanup_expired_clarifications
  dsimp only
  rw [foldl_dictDel, List.mem_filter]
  constructor
  · rintro ⟨hes, hnot⟩
    refine ⟨hes, ?_⟩
    rw [decide_eq_true_eq] at hnot
    by_contra hne
    have hexp : isExpired now max_age_hours e.2 = true :=
      eq_true_of_ne_false hne
    exact hnot (List.mem_map.mpr ⟨e, List.mem_filter.mpr ⟨hes, hexp⟩, rfl⟩)
  · rintro ⟨hes, hnot⟩
    refine ⟨hes, ?_⟩
    rw [decide_eq_true_eq]
    intro hmem
    obtain ⟨q, hq, hqu⟩ := List.mem_map.mp hmem
    obtain ⟨hqs, hqexp⟩ := List.mem_filter.mp hq
    have : q = e := WF_eq_of_keys_eq s h q e hqs hes hqu
    rw [this] at hqexp
    rw [hqexp] at hnot
    cases hnot

/-- The sweep through `get`: the record for `u` survives iff it was
present and not expired. -/
theorem cleanup_get (s : Store) (disk : RawFile) (writeOk : Bool)
    (now max_age_hours : Int) (h : WF s) (u : Nat) :
    get_pending_clarification
        (cleanup_expired_clarifications s disk writeOk now max_age_hours).1 u =
      (get_pending_clarification s u).bind
        (fun v => if isExpired now max_age_hours v then none else some v) := by
  unfold get_pending_clarification cleanup_expired_clarifications
  dsimp only
  rw [foldl_dictDel, dictGet_filter s h]
  cases hg : dictGet s u with
  | none => rfl
  | some v =>
    have hmem : (u, v) ∈ s := dictGet_mem s u v hg
    simp only [Option.bind_some]
    by_cases hexp : isExpired now max_age_hours v = true
    · have : u ∈ (s.filter
          (fun p => isExpired now max_age_hours p.2)).map Prod.fst :=
        List.mem_map.mpr ⟨(u, v), List.mem_filter.mpr ⟨hmem, hexp⟩, rfl⟩
      simp [this, hexp]
    · have hexp' : isExpired now max_age_hours v = false :=
        Bool.eq_false_iff.mpr hexp
      have : u ∉ (s.filter
          (fun p => isExpired now max_age_hours p.2)).map Prod.fst := by
        intro hmem'
        obtain ⟨q, hq, hqu⟩ := List.mem_map.mp hmem'
        obtain ⟨hqs, hqexp⟩ := List.mem_filter.mp hq
        have : q = (u, v) := WF_eq_of_keys_eq s h q (u, v) hqs hmem hqu
        rw [this] at hqexp
        rw [hexp'] at hqexp
        cases hqexp
      simp [this, hexp']

/- ### Round-trip lemmas for the persistence layer -/

theorem parseDigits_digits (n : Nat) : parseDigits (Nat.digits 10 n) = some n := by
  unfold parseDigits
  rw [if_pos, Nat.ofDigits_digits]
  rw [List.all_eq_true]
  intro x hx
  simpa using Nat.digits_lt_base (by norm_num) hx

theorem decodeEntry_encodeEntry (p : Nat × PendingClarification) :
    decodeEntry (encodeEntry p) = some p := by
  obtain ⟨u, v⟩ := p
  unfold decodeEntry encodeEntry
  simp [parseDigits_digits]

theorem decodeAll_map_encodeEntry (s : Store) :
    decodeAll (s.map encodeEntry) = some s := by
  induction s with
  | nil => rfl
  | cons hd tl ih =>
    simp only [List.map_cons]
    unfold decodeAll
    rw [decodeEntry_encodeEntry, ih]

theorem dictSet_append (s : Store) (u : Nat) (v : PendingClarification)
    (h : u ∉ keys s) : dictSet s u v = s ++ [(u, v)] := by
  induction s with
  | nil => rfl
  | cons hd tl ih =>
    obtain ⟨k, w⟩ := hd
    rw [keys_cons, List.mem_cons, not_or] at h
    have hk : ¬ k = u := fun hh => h.1 hh.symm
    simp [dictSet, hk, ih h.2]

theorem foldl_dictSet_disjoint (s : Store) :
    ∀ acc : Store, WF s → (keys acc).Disjoint (keys s) →
      s.foldl (fun st p => dictSet st p.1 p.2) acc = acc ++ s := by
  induction s with
  | nil =>
    intro acc _ _
    simp
  | cons hd0 tl ih =>
    intro acc h hd
    obtain ⟨u, v⟩ := hd0
    have hnd : u ∉ keys tl ∧ WF tl := by
      unfold WF at h ⊢
      simpa [keys_cons] using h
    have hu : u ∉ keys acc := by
      intro hmem
      exact hd hmem (by rw [keys_cons]; exact List.mem_cons_self _ _)
    have hdisj : (keys (acc ++ [(u, v)])).Disjoint (keys tl) := by
      intro x hx
      unfold keys at hx
      rw [List.map_append] at hx
      rcases List.mem_append.mp hx with hx1 | hx2
      · intro hmem
        exact hd hx1 (by rw [keys_cons]; exact List.mem_cons_of_mem _ hmem)
      · simp at hx2
        rw [hx2]
        exact fun hmem => hnd.1 hmem
    rw [List.foldl_cons, dictSet_append acc u v hu,
        ih (acc ++ [(u, v)]) hnd.2 hdisj, List.append_assoc]
    rfl

/-- Saving a well-formed store and reloading it (a simulated process
restart) restores exactly the same store. -/
theorem load_save (s : Store) (disk : RawFile) (h : WF s) :
    load_from_file (save_to_file s true disk) = s := by
  unfold save_to_file load_from_file
  rw [if_pos rfl]
  simp only [decodeAll_map_encodeEntry]
  simpa using foldl_dictSet_disjoint s [] h (by simp [keys])

/- ### Sequences of store calls (for the at-most-one-pending invariant) -/

/-- The caller-supplied arguments of one `store_pending_clarification`
call, together with the wall-clock instant of the call. -/
structure StoreArgs where
  original_data : List (String × String)
  analysis_text : String
  uncertain_items : List String
  uncertainty_reasons : List String
  media_type : String
  now : Nat
deriving DecidableEq, Repr

/-- The record `store_pending_clarification` builds for user `u` from
one call's arguments. -/
def mkPending (u : Nat) (a : StoreArgs) : PendingClarification :=
  ⟨u, a.original_data, a.analysis_text, a.uncertain_items,
   a.uncertainty_reasons, a.now, a.media_type⟩

/-- In-memory effect of a sequence of `store_pending_clarification`
calls for user `u`. -/
def applyStores (s : Store) (u : Nat) (l : List StoreArgs) : Store :=
  l.foldl (fun st a =>
    (store_pending_clarification st none true u a.original_data
      a.analysis_text a.uncertain_items a.uncertainty_reasons
      a.media_type a.now).1) s

theorem store_pending_fst (s : Store) (disk : RawFile) (writeOk : Bool)
    (u : Nat) (od : List (String × String)) (att : String)
    (ui ur : List String) (mt : String) (now : Nat) :
    (store_pending_clarification s disk writeOk u od att ui ur mt now).1 =
      dictSet s u ⟨u, od, att, ui, ur, now, mt⟩ := rfl

theorem applyStores_append_singleton (s : Store) (u : Nat)
    (l : List StoreArgs) (a : StoreArgs) :
    applyStores s u (l ++ [a]) = dictSet (applyStores s u l) u (mkPending u a) := by
  unfold applyStores
  rw [List.foldl_append]
  rfl

theorem WF_applyStores (s : Store) (u : Nat) (l : List StoreArgs)
    (h : WF s) : WF (applyStores s u l) := by
  induction l generalizing s with
  | nil => exact h
  | cons a rest ih =>
    unfold applyStores
    rw [List.foldl_cons]
    exact ih _ (WF_dictSet s u _ h)

/-- **C1.** At-most-one-pending invariant: starting from any
well-formed store, after every `store_pending_clarification` call of
any sequence of such calls for user `u` (the sequence point is the
split `pre ++ [a]`), `has_pending_clarification` is `true`, the dict
holds exactly one entry for `u`, and `get_pending_clarification`
returns the record of the latest call — each store replaced, did not
accumulate beside, the previous record. -/
theorem store_at_most_one_pending (s : Store) (u : Nat) (h : WF s)
    (pre : List StoreArgs) (a : StoreArgs) :
    has_pending_clarification (applyStores s u (pre ++ [a])) u = true ∧
    (keys (applyStores s u (pre ++ [a]))).count u = 1 ∧
    get_pending_clarification (applyStores s u (pre ++ [a])) u =
      some (mkPending u a) := by
  rw [applyStores_append_singleton]
  have hWF : WF (applyStores s u pre) := WF_applyStores s u pre h
  have hget : dictGet (dictSet (applyStores s u pre) u (mkPending u a)) u =
      some (mkPending u a) := dictGet_dictSet_self _ _ _
  refine ⟨?_, ?_, hget⟩
  · unfold has_pending_clarification
    rw [hget]
    rfl
  · have hmem : u ∈ keys (dictSet (applyStores s u pre) u (mkPending u a)) := by
      rw [keys_dictSet]
      by_cases hm : u ∈ keys (applyStores s u pre)
      · simp [hm]
      · simp [hm]
    exact List.count_eq_one_of_mem (WF_dictSet _ _ _ hWF) hmem

/-- Witness for C1 at a concrete store, user and two-call sequence. -/
theorem store_at_most_one_pending_witness :
    WF [(3, ⟨3, [], "old", [], [], 5, "text"⟩)] ∧
    (has_pending_clarification
        (applyStores [(3, ⟨3, [], "old", [], [], 5, "text"⟩)] 3
          ([⟨[], "first", ["a"], ["r"], "photo", 10⟩] ++
            [⟨[], "second", ["b"], ["q"], "text", 20⟩])) 3 = true ∧
      (keys (applyStores [(3, ⟨3, [], "old", [], [], 5, "text"⟩)] 3
          ([⟨[], "first", ["a"], ["r"], "photo", 10⟩] ++
            [⟨[], "second", ["b"], ["q"], "text", 20⟩]))).count 3 = 1 ∧
      get_pending_clarification
        (applyStores [(3, ⟨3, [], "old", [], [], 5, "text"⟩)] 3
          ([⟨[], "first", ["a"], ["r"], "photo", 10⟩] ++
            [⟨[], "second", ["b"], ["q"], "text", 20⟩])) 3 =
        some (mkPending 3 ⟨[], "second", ["b"], ["q"], "text", 20⟩)) :=
  ⟨by decide,
   store_at_most_one_pending [(3, ⟨3, [], "old", [], [], 5, "text"⟩)] 3
     (by decide) [⟨[], "first", ["a"], ["r"], "photo", 10⟩]
     ⟨[], "second", ["b"], ["q"], "text", 20⟩⟩

/-- **C2.** Atomicity on merge failure: when a pending record exists
and the provider's reanalysis call made by the clarification handler
(photo, text or audio path) returns no usable result, the outcome is
`analysis_failed` and the store, the disk, and in particular the
original pending record of the user are left untouched — no store or
clear happens. -/
theorem merge_failure_preserves_pending (s : Store) (disk : RawFile)
    (writeOk : Bool) (u : Nat) (pending : PendingClarification)
    (p : Provider) (photo_bytes txt audio_bytes filename : String)
    (hpend : get_pending_clarification s u = some pending)
    (hphoto : p.run (ProviderCall.analyze_with_clarification
        pending.analysis_text photo_bytes "photo" none) = none)
    (htext : p.run (ProviderCall.analyze_food_text
        (dataGetD pending.original_data "text_description" "") (some txt)) = none)
    (haudio : p.run (ProviderCall.analyze_with_clarification
        pending.analysis_text audio_bytes "audio" (some filename)) = none) :
    handle_clarification_photo s disk writeOk u photo_bytes p =
      ⟨s, disk, .analysisFailed, [ProviderCall.analyze_with_clarification
        pending.analysis_text photo_bytes "photo" none]⟩ ∧
    handle_clarification_text s disk writeOk u txt p =
      ⟨s, disk, .analysisFailed, [ProviderCall.analyze_food_text
        (dataGetD pending.original_data "text_description" "") (some txt)]⟩ ∧
    handle_clarification_audio s disk writeOk u audio_bytes filename p =
      ⟨s, disk, .analysisFailed, [ProviderCall.analyze_with_clarification
        pending.analysis_text audio_bytes "audio" (some filename)]⟩ ∧
    get_pending_clarification
      (handle_clarification_photo s disk writeOk u photo_bytes p).store u =
      some pending := by
  have h1 : handle_clarification_photo s disk writeOk u photo_bytes p =
      ⟨s, disk, .analysisFailed, [ProviderCall.analyze_with_clarification
        pending.analysis_text photo_bytes "photo" none]⟩ := by
    unfold handle_clarification_photo
    rw [hpend]
    dsimp only
    rw [hphoto]
  refine ⟨h1, ?_, ?_, ?_⟩
  · unfold handle_clarification_text
    rw [hpend]
    dsimp only
    rw [htext]
  · unfold handle_clarification_audio
    rw [hpend]
    dsimp only
    rw [haudio]
  · rw [h1]
    exact hpend

/-- A concrete pending record used by several witnesses. -/
def samplePending : PendingClarification :=
  ⟨7, [("text_description", "rice"), ("analysis_text", "SUMMARY")],
   "SUMMARY", ["rice"], ["portion unclear"], 1000, "text"⟩

/-- A provider whose every method fails (errors / empty results). -/
def failingProvider : Provider :=
  ⟨fun _ _ => none, fun _ _ => none, fun _ _ _ => none, fun _ _ _ _ => none⟩

/-- Witness for C2: one pending record, all provider calls failing. -/
theorem merge_failure_preserves_pending_witness :
    get_pending_clarification [(7, samplePending)] 7 = some samplePending ∧
    (handle_clarification_photo [(7, samplePending)] none true 7 "PIC"
        failingProvider =
      ⟨[(7, samplePending)], none, .analysisFailed,
       [ProviderCall.analyze_with_clarification
         samplePending.analysis_text "PIC" "photo" none]⟩ ∧
     handle_clarification_text [(7, samplePending)] none true 7 "more"
        failingProvider =
      ⟨[(7, samplePending)], none, .analysisFailed,
       [ProviderCall.analyze_food_text
         (dataGetD samplePending.original_data "text_description" "")
         (some "more")]⟩ ∧
     handle_clarification_audio [(7, samplePending)] none true 7 "AUD" "a.ogg"
        failingProvider =
      ⟨[(7, samplePending)], none, .analysisFailed,
       [ProviderCall.analyze_with_clarification
         samplePending.analysis_text "AUD" "audio" (some "a.ogg")]⟩ ∧
     get_pending_clarification
       (handle_clarification_photo [(7, samplePending)] none true 7 "PIC"
         failingProvider).store 7 = some samplePending) :=
  ⟨rfl,
   merge_failure_preserves_pending [(7, samplePending)] none true 7
     samplePending failingProvider "PIC" "more" "AUD" "a.ogg"
     rfl rfl rfl rfl⟩

/-- A provider whose every method succeeds with a fixed confident
result (no uncertainty). -/
def confidentProvider : Provider :=
  ⟨fun _ _ => some ⟨"RESULT", none⟩,
   fun _ _ => some ⟨"RESULT", none⟩,
   fun _ _ _ => some (⟨"RESULT", none⟩, "transcript"),
   fun _ _ _ _ => some ⟨"RESULT", none⟩⟩

/-- **C3, counterexample.** The claim says every clarification-path
reanalysis is invoked with the stored record's `analysis_text` and the
new payload, never reusing the stored original payload.  On the text
path the code does the opposite: with the pending record
`samplePending` (whose `analysis_text` is `"SUMMARY"` and whose stored
original payload is `"rice"`), the single provider call made by
`handle_clarification_text` carries the original payload `"rice"` —
not the analysis summary `"SUMMARY"`, which appears nowhere in the
call. -/
theorem text_clarification_reuses_payload_cex :
    (handle_clarification_text [(7, samplePending)] none true 7
        "with chicken" confidentProvider).calls =
      [ProviderCall.analyze_food_text "rice" (some "with chicken")] ∧
    samplePending.analysis_text = "SUMMARY" ∧
    dataGetD samplePending.original_data "text_description" "" = "rice" ∧
    ProviderCall.analyze_food_text "rice" (some "with chicken") ≠
      ProviderCall.analyze_food_text samplePending.analysis_text
        (some "with chicken") := by
  refine ⟨rfl, rfl, rfl, ?_⟩
  decide

/-- **C3, amended.** While a pending clarification exists: the photo
and audio clarification paths call the provider exactly once, with
exactly the stored record's `analysis_text` and the new submission's
payload (the stored original payload and media type are not reused);
the text clarification path instead calls `analyze_food_text` with the
stored record's original text payload
(`original_data.get('text_description', '')`, so the empty string when
the original submission was a photo or audio) and the new text — the
stored `analysis_text` is not passed on that path.  The dispatching
handlers delegate to these paths whenever a pending record exists. -/
theorem clarification_call_arguments (s : Store) (disk : RawFile)
    (writeOk : Bool) (u : Nat) (pending : PendingClarification)
    (p : Provider) (photo_bytes txt audio_bytes filename : String) (now : Nat)
    (hpend : get_pending_clarification s u = some pending) :
    (handle_clarification_photo s disk writeOk u photo_bytes p).calls =
      [ProviderCall.analyze_with_clarification pending.analysis_text
        photo_bytes "photo" none] ∧
    (handle_clarification_audio s disk writeOk u audio_bytes filename p).calls =
      [ProviderCall.analyze_with_clarification pending.analysis_text
        audio_bytes "audio" (some filename)] ∧
    (handle_clarification_text s disk writeOk u txt p).calls =
      [ProviderCall.analyze_food_text
        (dataGetD pending.original_data "text_description" "") (some txt)] ∧
    handle_food_photo s disk writeOk u photo_bytes p now =
      handle_clarification_photo s disk writeOk u photo_bytes p ∧
    handle_text_message s disk writeOk u txt p now =
      handle_clarification_text s disk writeOk u txt p ∧
    handle_audio s disk writeOk u audio_bytes filename p now =
      handle_clarification_audio s disk writeOk u audio_bytes filename p := by
  have hhas : has_pending_clarification s u = true := by
    unfold has_pending_clarification
    unfold get_pending_clarification at hpend
    rw [hpend]
    rfl
  refine ⟨?_, ?_, ?_, ?_, ?_, ?_⟩
  · unfold handle_clarification_photo
    rw [hpend]
    dsimp only
    cases p.run (ProviderCall.analyze_with_clarification pending.analysis_text
        photo_bytes "photo" none) <;> rfl
  · unfold handle_clarification_audio
    rw [hpend]
    dsimp only
    cases p.run (ProviderCall.analyze_with_clarification pending.analysis_text
        audio_bytes "audio" (some filename)) <;> rfl
  · unfold handle_clarification_text
    rw [hpend]
    dsimp only
    cases p.run (ProviderCall.analyze_food_text
        (dataGetD pending.original_data "text_description" "") (some txt)) <;> rfl
  · unfold handle_food_photo
    rw [hhas]
    rfl
  · unfold handle_text_message
    rw [hhas]
    rfl
  · unfold handle_audio
    rw [hhas]
    rfl

/-- Witness for the amended C3 at a concrete pending record. -/
theorem clarification_call_arguments_witness :
    get_pending_clarification [(7, samplePending)] 7 = some samplePending ∧
    ((handle_clarification_photo [(7, samplePending)] none true 7 "PIC"
        confidentProvider).calls =
      [ProviderCall.analyze_with_clarification samplePending.analysis_text
        "PIC" "photo" none] ∧
     (handle_clarification_audio [(7, samplePending)] none true 7 "AUD" "a.ogg"
        confidentProvider).calls =
      [ProviderCall.analyze_with_clarification samplePending.analysis_text
        "AUD" "audio" (some "a.ogg")] ∧
     (handle_clarification_text [(7, samplePending)] none true 7 "more"
        confidentProvider).calls =
      [ProviderCall.analyze_food_text
        (dataGetD samplePending.original_data "text_description" "")
        (some "more")] ∧
     handle_food_photo [(7, samplePending)] none true 7 "PIC"
        confidentProvider 99 =
       handle_clarification_photo [(7, samplePending)] none true 7 "PIC"
        confidentProvider ∧
     handle_text_message [(7, samplePending)] none true 7 "more"
        confidentProvider 99 =
       handle_clarification_text [(7, samplePending)] none true 7 "more"
        confidentProvider ∧
     handle_audio [(7, samplePending)] none true 7 "AUD" "a.ogg"
        confidentProvider 99 =
       handle_clarification_audio [(7, samplePending)] none true 7 "AUD" "a.ogg"
        confidentProvider) :=
  ⟨rfl,
   clarification_call_arguments [(7, samplePending)] none true 7 samplePending
     confidentProvider "PIC" "more" "AUD" "a.ogg" 99 rfl⟩

/-- Record stored 25 hours before the sweep instant `360000`. -/
def rExpired : PendingClarification := ⟨1, [], "old", [], [], 270000, "photo"⟩

/-- Record stored 1 hour before the sweep instant `360000`. -/
def rFresh : PendingClarification := ⟨2, [], "new", [], [], 356400, "text"⟩

/-- The claim's sweep scenario: two records aged 25h and 1h. -/
def sweepScenario : Store := [(1, rExpired), (2, rFresh)]

/-- **C4, counterexample.** In the claim's own scenario (records aged
25h and 1h, `max_age_hours = 24`) the sweep does remove exactly the
first record, but `cleanup_expired_clarifications` has no `return`
statement: the call returns `None`, not the removal count `1` the
claim requires (the count is only printed). -/
theorem sweep_returns_no_count_cex :
    (cleanup_expired_clarifications sweepScenario none true 360000 24).1 =
      [(2, rFresh)] ∧
    (cleanup_expired_clarifications sweepScenario none true 360000 24).2.2 =
      none ∧
    (cleanup_expired_clarifications sweepScenario none true 360000 24).2.2 ≠
      some 1 := by
  refine ⟨by decide, rfl, by decide⟩

/-- **C4, amended.** On a well-formed store the sweep keeps exactly
the entries whose timestamp is not strictly older than
`now - max_age_hours` (so it removes exactly the expired ones), and an
immediately repeated sweep removes nothing; but the call returns
`None` both times — the removal count is printed, never returned. -/
theorem sweep_removes_exactly_expired (s : Store) (disk disk2 : RawFile)
    (writeOk writeOk2 : Bool) (now max_age_hours : Int) (h : WF s)
    (e : Nat × PendingClarification) :
    (e ∈ (cleanup_expired_clarifications s disk writeOk now max_age_hours).1 ↔
      e ∈ s ∧ isExpired now max_age_hours e.2 = false) ∧
    (cleanup_expired_clarifications s disk writeOk now max_age_hours).2.2 =
      none ∧
    (cleanup_expired_clarifications
        (cleanup_expired_clarifications s disk writeOk now max_age_hours).1
        disk2 writeOk2 now max_age_hours).1 =
      (cleanup_expired_clarifications s disk writeOk now max_age_hours).1 ∧
    (cleanup_expired_clarifications
        (cleanup_expired_clarifications s disk writeOk now max_age_hours).1
        disk2 writeOk2 now max_age_hours).2.2 = none := by
  have hmem := cleanup_mem_iff s disk writeOk now max_age_hours h
  refine ⟨hmem e, rfl, ?_, rfl⟩
  have hnil : (cleanup_expired_clarifications s disk writeOk
      now max_age_hours).1.filter (fun p => isExpired now max_age_hours p.2) =
      [] := by
    rw [List.filter_eq_nil_iff]
    intro a ha
    have := ((hmem a).mp ha).2
    simp [this]
  conv =>
    lhs
    rw [cleanup_expired_clarifications]
  dsimp only
  rw [hnil]
  rfl

/-- Witness for the amended C4 at the claim's own 25h/1h scenario. -/
theorem sweep_removes_exactly_expired_witness :
    WF sweepScenario ∧
    (((1, rExpired) ∈
        (cleanup_expired_clarifications sweepScenario none true 360000 24).1 ↔
      (1, rExpired) ∈ sweepScenario ∧ isExpired 360000 24 rExpired = false) ∧
     (cleanup_expired_clarifications sweepScenario none true 360000 24).2.2 =
      none ∧
     (cleanup_expired_clarifications
        (cleanup_expired_clarifications sweepScenario none true 360000 24).1
        none true 360000 24).1 =
      (cleanup_expired_clarifications sweepScenario none true 360000 24).1 ∧
     (cleanup_expired_clarifications
        (cleanup_expired_clarifications sweepScenario none true 360000 24).1
        none true 360000 24).2.2 = none) :=
  ⟨by decide,
   sweep_removes_exactly_expired sweepScenario none none true true 360000 24
     (by decide) (1, rExpired)⟩

/-- **C5.** Round-trip persistence: storing a record for `u` on a
well-formed store, then rebuilding the in-memory state from the
persistence file alone (a simulated process restart:
`_load_from_file` of what `_save_to_file` wrote), then reading `u`,
yields a record equal in every field (`user_id`, `original_data`,
`analysis_text`, `uncertain_items`, `uncertainty_reasons`,
`timestamp`, `media_type`) to the one stored. -/
theorem store_reload_round_trip (s : Store) (disk : RawFile) (u : Nat)
    (od : List (String × String)) (att : String) (ui ur : List String)
    (mt : String) (now : Nat) (h : WF s) :
    get_pending_clarification
      (load_from_file
        (store_pending_clarification s disk true u od att ui ur mt now).2) u =
      some ⟨u, od, att, ui, ur, now, mt⟩ := by
  unfold store_pending_clarification
  dsimp only
  rw [load_save _ disk (WF_dictSet s u _ h)]
  exact dictGet_dictSet_self s u _

/-- Witness for C5 at a concrete store and record. -/
theorem store_reload_round_trip_witness :
    WF [(3, ⟨3, [], "other", [], [], 5, "audio"⟩)] ∧
    get_pending_clarification
      (load_from_file
        (store_pending_clarification [(3, ⟨3, [], "other", [], [], 5, "audio"⟩)]
          none true 7 [("text_description", "rice")] "SUMMARY" ["rice"]
          ["portion unclear"] "text" 1000).2) 7 =
      some ⟨7, [("text_description", "rice")], "SUMMARY", ["rice"],
            ["portion unclear"], 1000, "text"⟩ :=
  ⟨by decide,
   store_reload_round_trip [(3, ⟨3, [], "other", [], [], 5, "audio"⟩)] none 7
     [("text_description", "rice")] "SUMMARY" ["rice"] ["portion unclear"]
     "text" 1000 (by decide)⟩

/-- A provider whose image analysis reports uncertainty (used to drive
the store-pending path of `handle_food_photo`). -/
def uncertainProvider : Provider :=
  ⟨fun _ _ => some ⟨"UNSURE", some ⟨true, ["item"], ["why"]⟩⟩,
   fun _ _ => some ⟨"UNSURE", some ⟨true, ["item"], ["why"]⟩⟩,
   fun _ _ _ => some (⟨"UNSURE", some ⟨true, ["item"], ["why"]⟩⟩, "transcript"),
   fun _ _ _ _ => some ⟨"UNSURE", some ⟨true, ["item"], ["why"]⟩⟩⟩

/-- **C6, counterexample.** With an empty store and a failing disk
(`writeOk = false`), `handle_food_photo` on an uncertain analysis
still replies with the clarification request: the disk is unchanged
(still no file), so a restart would recover no pending record — yet
the user was told to clarify.  Nothing reported the persistence
failure to the handler: `store_pending_clarification` has no failure
channel (`_save_to_file` catches every exception and only prints). -/
theorem persistence_failure_swallowed_cex :
    (handle_food_photo [] none false 1 "PIC" uncertainProvider 100).outcome =
      Outcome.clarificationRequested ∧
    (handle_food_photo [] none false 1 "PIC" uncertainProvider 100).disk =
      none ∧
    load_from_file
      (handle_food_photo [] none false 1 "PIC" uncertainProvider 100).disk =
      [] ∧
    has_pending_clarification
      (handle_food_photo [] none false 1 "PIC" uncertainProvider 100).store 1 =
      true := by
  refine ⟨rfl, rfl, rfl, rfl⟩

/-- **C6, amended.** A durable-write failure during
`store_pending_clarification` is swallowed, not reported: the call
updates the in-memory dict exactly as on a successful write, returns
no failure indication, and leaves the disk unchanged; consequently
`handle_food_photo` produces the same outcome and the same in-memory
store whether or not the flush succeeded, and in particular still
emits the clarification-requested response for a record that was not
durably recorded. -/
theorem persistence_failure_invisible (s : Store) (disk : RawFile) (u : Nat)
    (od : List (String × String)) (att : String) (ui ur : List String)
    (mt : String) (now : Nat) (photo_bytes : String) (p : Provider) :
    (store_pending_clarification s disk false u od att ui ur mt now).1 =
      (store_pending_clarification s disk true u od att ui ur mt now).1 ∧
    (store_pending_clarification s disk false u od att ui ur mt now).2 =
      disk ∧
    (handle_food_photo s disk false u photo_bytes p now).outcome =
      (handle_food_photo s disk true u photo_bytes p now).outcome ∧
    (handle_food_photo s disk false u photo_bytes p now).store =
      (handle_food_photo s disk true u photo_bytes p now).store ∧
    (handle_food_photo s disk false u photo_bytes p now).disk = disk := by
  refine ⟨rfl, rfl, ?_⟩
  unfold handle_food_photo handle_clarification_photo
    store_pending_clarification clear_pending_clarification save_to_file
  dsimp only
  by_cases hb : has_pending_clarification s u = true
  · rw [hb]
    simp only [if_true]
    cases hg : get_pending_clarification s u with
    | none => exact ⟨rfl, rfl, rfl⟩
    | some pending =>
      dsimp only
      cases p.run (ProviderCall.analyze_with_clarification
          pending.analysis_text photo_bytes "photo" none) with
      | none => exact ⟨rfl, rfl, rfl⟩
      | some a =>
        dsimp only
        by_cases hu : u ∈ keys s
        · simp [hu]
        · simp [hu]
  · rw [Bool.not_eq_true] at hb
    rw [hb]
    simp only [Bool.false_eq_true, if_false]
    cases p.run (ProviderCall.analyze_food_image photo_bytes none) with
    | none => exact ⟨rfl, rfl, rfl⟩
    | some analysis =>
      dsimp only
      cases analysis.uncertainty with
      | none => exact ⟨rfl, rfl, rfl⟩
      | some unc =>
        dsimp only
        by_cases hu : unc.has_uncertainty = true
        · simp [hu]
        · rw [Bool.not_eq_true] at hu
          simp [hu]

/-- A file entry whose timestamp text contains a non-digit, so
`datetime.fromisoformat` raises on it. -/
def corruptEntry : List Nat × SerializedClarification :=
  ([1], ⟨1, [], "x", [], [], [99], "photo"⟩)

/-- **C7, counterexample.** With corrupt persisted state the service
does not fail initialization: `_load_from_file` catches the exception,
prints it, and completes with an empty pending set — even discarding
entries that were perfectly readable.  The final conjunct shows a
readable entry alongside the corrupt one is silently lost too. -/
theorem corrupt_load_completes_empty_cex :
    decodeEntry corruptEntry = none ∧
    load_from_file (some [corruptEntry]) = [] ∧
    decodeEntry ([3], ⟨2, [], "new", [], [], [5], "text"⟩) =
      some (3, ⟨2, [], "new", [], [], 5, "text"⟩) ∧
    load_from_file
      (some [([3], ⟨2, [], "new", [], [], [5], "text"⟩), corruptEntry]) = [] := by
  refine ⟨rfl, rfl, rfl, rfl⟩

/-- **C7, amended.** If any entry of the persisted state is corrupt or
unreadable at service initialization (load time), the exception is
caught *inside* `_load_from_file` (only printed) and initialization
completes successfully with an empty pending set — it does not fail
loudly. -/
theorem corrupt_load_caught_empty :
    ∀ (entries : List (List Nat × SerializedClarification))
      (e : List Nat × SerializedClarification),
      e ∈ entries → decodeEntry e = none →
      load_from_file (some entries) = [] := by
  have hnone : ∀ (entries : List (List Nat × SerializedClarification))
      (e : List Nat × SerializedClarification),
      e ∈ entries → decodeEntry e = none → decodeAll entries = none := by
    intro entries
    induction entries with
    | nil =>
      intro e he
      cases he
    | cons hd tl ih =>
      intro e he hbad
      rcases List.mem_cons.mp he with h1 | h2
      · subst h1
        unfold decodeAll
        rw [hbad]
      · unfold decodeAll
        rw [ih e h2 hbad]
        cases decodeEntry hd <;> rfl
  intro entries e he hbad
  unfold load_from_file
  dsimp only
  rw [hnone entries e he hbad]

/-- Witness for the amended C7 at the concrete corrupt file. -/
theorem corrupt_load_caught_empty_witness :
    corruptEntry ∈ [corruptEntry] ∧ decodeEntry corruptEntry = none ∧
    load_from_file (some [corruptEntry]) = [] :=
  ⟨by decide, rfl,
   corrupt_load_caught_empty [corruptEntry] corruptEntry (by decide) rfl⟩

/-- **C8.** Cancel/clear idempotence: clearing with nothing pending is
a no-op (and not an error — the function simply returns), after any
cancel `has_pending_clarification` is `false`, the first cancel
reports (by its reply, the `Bool` component) exactly whether a record
existed, and a second cancel immediately after always reports
`false`. -/
theorem cancel_idempotent (s : Store) (disk : RawFile)
    (writeOk writeOk2 : Bool) (u : Nat) :
    (has_pending_clarification s u = false →
      clear_pending_clarification s disk writeOk u = (s, disk) ∧
      cancel_clarification s disk writeOk u = (s, disk, false)) ∧
    (cancel_clarification s disk writeOk u).2.2 =
      has_pending_clarification s u ∧
    has_pending_clarification (cancel_clarification s disk writeOk u).1 u =
      false ∧
    (cancel_clarification (cancel_clarification s disk writeOk u).1
      (cancel_clarification s disk writeOk u).2.1 writeOk2 u).2.2 = false := by
  cases hb : dictGet s u with
  | none =>
    have hhp : has_pending_clarification s u = false := by
      unfold has_pending_clarification
      rw [hb]
      rfl
    have hk : u ∉ keys s := (dictGet_eq_none_iff s u).mp hb
    have hclear : clear_pending_clarification s disk writeOk u = (s, disk) := by
      unfold clear_pending_clarification
      rw [if_neg hk]
    have hcancel : cancel_clarification s disk writeOk u = (s, disk, false) := by
      unfold cancel_clarification
      rw [hhp]
      simp
    have hcancel2 : cancel_clarification s disk writeOk2 u = (s, disk, false) := by
      unfold cancel_clarification
      rw [hhp]
      simp
    refine ⟨fun _ => ⟨hclear, hcancel⟩, ?_, ?_, ?_⟩
    · rw [hcancel, hhp]
    · rw [hcancel]
      exact hhp
    · rw [hcancel]
      dsimp only
      rw [hcancel2]
  | some v =>
    have hhp : has_pending_clarification s u = true := by
      unfold has_pending_clarification
      rw [hb]
      rfl
    have hk : u ∈ keys s := (dictGet_isSome_iff s u).mp (by
      unfold has_pending_clarification at hhp
      exact hhp)
    have hclear : clear_pending_clarification s disk writeOk u =
        (dictDel s u, save_to_file (dictDel s u) writeOk disk) := by
      unfold clear_pending_clarification
      rw [if_pos hk]
    have hcancel : cancel_clarification s disk writeOk u =
        (dictDel s u, save_to_file (dictDel s u) writeOk disk, true) := by
      unfold cancel_clarification
      rw [hhp, hclear]
      rfl
    have hhp2 : has_pending_clarification (dictDel s u) u = false := by
      unfold has_pending_clarification
      rw [dictGet_dictDel_self]
      rfl
    have hcancel2 : cancel_clarification (dictDel s u)
        (save_to_file (dictDel s u) writeOk disk) writeOk2 u =
        (dictDel s u, save_to_file (dictDel s u) writeOk disk, false) := by
      unfold cancel_clarification
      rw [hhp2]
      simp
    refine ⟨fun habs => ?_, ?_, ?_, ?_⟩
    · rw [habs] at hhp
      exact absurd hhp (by decide)
    · rw [hcancel, hhp]
    · rw [hcancel]
      exact hhp2
    · rw [hcancel]
      dsimp only
      rw [hcancel2]

/-- Witness for C8 on a store with a pending record (the `true` branch)
— the hypothesis-bearing first conjunct is exercised by the theorem
applied to the empty store further below in the same statement. -/
theorem cancel_idempotent_witness :
    (has_pending_clarification ([] : Store) 7 = false →
      clear_pending_clarification [] none true 7 = ([], none) ∧
      cancel_clarification [] none true 7 = ([], none, false)) ∧
    (cancel_clarification [] none true 7).2.2 =
      has_pending_clarification ([] : Store) 7 ∧
    has_pending_clarification (cancel_clarification [] none true 7).1 7 =
      false ∧
    (cancel_clarification (cancel_clarification [] none true 7).1
      (cancel_clarification [] none true 7).2.1 true 7).2.2 = false :=
  cancel_idempotent [] none true true 7

/-- **C10.** `store_pending_clarification` builds its record with
`timestamp = datetime.now()` — the wall-clock instant `now` of the
call itself; its signature offers the caller no creation-time
parameter.  Hence after a store (including one replacing an older
record for the same user in `s`), the retrievable record's timestamp
is exactly `now`, and the expiry sweep at a later instant `T` keeps or
drops the user's record solely by whether `now` (the latest store) is
older than `T - max_age_hours`, never by any earlier record's
timestamp. -/
theorem record_timestamp_is_store_time (s : Store) (disk : RawFile)
    (writeOk : Bool) (u : Nat) (od : List (String × String)) (att : String)
    (ui ur : List String) (mt : String) (now : Nat) (h : WF s)
    (T max_age_hours : Int) :
    get_pending_clarification
      (store_pending_clarification s disk writeOk u od att ui ur mt now).1 u =
      some ⟨u, od, att, ui, ur, now, mt⟩ ∧
    (get_pending_clarification
      (store_pending_clarification s disk writeOk u od att ui ur mt now).1
      u).map PendingClarification.timestamp = some now ∧
    get_pending_clarification
      (cleanup_expired_clarifications
        (store_pending_clarification s disk writeOk u od att ui ur mt now).1
        disk writeOk T max_age_hours).1 u =
      (if (now : Int) < T - max_age_hours * 3600 then none
       else some ⟨u, od, att, ui, ur, now, mt⟩) := by
  have hget : get_pending_clarification
      (store_pending_clarification s disk writeOk u od att ui ur mt now).1 u =
      some ⟨u, od, att, ui, ur, now, mt⟩ := dictGet_dictSet_self s u _
  refine ⟨hget, by rw [hget]; rfl, ?_⟩
  rw [cleanup_get
      (store_pending_clarification s disk writeOk u od att ui ur mt now).1
      disk writeOk T max_age_hours (WF_dictSet s u _ h) u, hget]
  unfold isExpired
  by_cases hc : (now : Int) < T - max_age_hours * 3600
  · simp [hc]
  · simp [hc]

/-- Witness for C10: re-storing over a record from time `0` at time
`356400` and sweeping at `360000` with a 24h age keeps the record. -/
theorem record_timestamp_is_store_time_witness :
    WF [(7, ⟨7, [], "old", [], [], 0, "photo"⟩)] ∧
    (get_pending_clarification
      (store_pending_clarification [(7, ⟨7, [], "old", [], [], 0, "photo"⟩)]
        none true 7 [] "NEW" ["i"] ["r"] "text" 356400).1 7 =
      some ⟨7, [], "NEW", ["i"], ["r"], 356400, "text"⟩ ∧
    (get_pending_clarification
      (store_pending_clarification [(7, ⟨7, [], "old", [], [], 0, "photo"⟩)]
        none true 7 [] "NEW" ["i"] ["r"] "text" 356400).1
      7).map PendingClarification.timestamp = some 356400 ∧
    get_pending_clarification
      (cleanup_expired_clarifications
        (store_pending_clarification [(7, ⟨7, [], "old", [], [], 0, "photo"⟩)]
          none true 7 [] "NEW" ["i"] ["r"] "text" 356400).1
        none true 360000 24).1 7 =
      (if (356400 : Int) < 360000 - 24 * 3600 then none
       else some ⟨7, [], "NEW", ["i"], ["r"], 356400, "text"⟩)) :=
  ⟨by decide,
   record_timestamp_is_store_time [(7, ⟨7, [], "old", [], [], 0, "photo"⟩)]
     none true 7 [] "NEW" ["i"] ["r"] "text" 356400 (by decide) 360000 24⟩

end FoodJournal
